import Mathlib

/-!
# Verification of the ixtar bundle library

Shallow embedding of the core of `ixtar.go` (package `ixtar`): the bundle
builder `CreateBundleWithProgress`, the reader `NewIxTar` /
`ExtractBytesOfFile` / `Close` / `ListFiles` / `Info`, the CSV index codec
`parseCSVIndex`, and the key derivation `hashFilePath`.

Modelling conventions:
* Go byte strings and file contents are `List Nat` with every element a byte
  value (< 256 holds by construction everywhere the model produces bytes).
* Go `map[string]FileIndex` is an association list with unique keys;
  assignment replaces an existing binding in place or appends a new one,
  which preserves Go's last-write-wins semantics.
* Go `int64` offsets and sizes are `Int`; the builder only ever produces
  non-negative values.
* File I/O is modelled by an explicit file-handle state (`GoFile`): contents,
  cursor position and a closed flag, with `Seek`/`ReadFull` as state
  transformers that fail on a closed handle, exactly as `os.File` operations
  fail with `ErrClosed` after `Close`.
-/

namespace Ixtar

/-! ## UTF-8 encoding (model of Go string-to-byte conversion)

Go strings are byte strings; `[]byte(s)` for a Go string literal is the
UTF-8 encoding. -/

/-- UTF-8 encoding of a single unicode scalar value, as byte values. -/
def utf8EncodeCharNat (c : Char) : List Nat :=
  let n := c.toNat
  if n < 128 then [n]
  else if n < 2048 then [192 + n / 64, 128 + n % 64]
  else if n < 65536 then [224 + n / 4096, 128 + n / 64 % 64, 128 + n % 64]
  else [240 + n / 262144, 128 + n / 4096 % 64, 128 + n / 64 % 64, 128 + n % 64]

/-- Byte content of a Go string (UTF-8). -/
def utf8Bytes (s : String) : List Nat :=
  (s.data.map utf8EncodeCharNat).flatten

/-! ## MD5 (model of crypto/md5 from the Go standard library)

`hashFilePath` in the source calls `md5.New` / `Sum`; the RFC 1321
algorithm is reproduced here on `Nat` words with explicit `% 2^32`
truncation. -/

/-- Bitwise complement inside a 32-bit word. -/
def c32 (x : Nat) : Nat := x ^^^ (2 ^ 32 - 1)

/-- Left rotation of a 32-bit word. -/
def rotl32 (x s : Nat) : Nat :=
  (((x % 2 ^ 32) <<< s) % 2 ^ 32) ||| ((x % 2 ^ 32) >>> (32 - s))

/-- The 64 sine-derived round constants of MD5 (RFC 1321). -/
def md5K : List Nat :=
  [0xd76aa478, 0xe8c7b756, 0x242070db, 0xc1bdceee,
   0xf57c0faf, 0x4787c62a, 0xa8304613, 0xfd469501,
   0x698098d8, 0x8b44f7af, 0xffff5bb1, 0x895cd7be,
   0x6b901122, 0xfd987193, 0xa679438e, 0x49b40821,
   0xf61e2562, 0xc040b340, 0x265e5a51, 0xe9b6c7aa,
   0xd62f105d, 0x02441453, 0xd8a1e681, 0xe7d3fbc8,
   0x21e1cde6, 0xc33707d6, 0xf4d50d87, 0x455a14ed,
   0xa9e3e905, 0xfcefa3f8, 0x676f02d9, 0x8d2a4c8a,
   0xfffa3942, 0x8771f681, 0x6d9d6122, 0xfde5380c,
   0xa4beea44, 0x4bdecfa9, 0xf6bb4b60, 0xbebfbc70,
   0x289b7ec6, 0xeaa127fa, 0xd4ef3085, 0x04881d05,
   0xd9d4d039, 0xe6db99e5, 0x1fa27cf8, 0xc4ac5665,
   0xf4292244, 0x432aff97, 0xab9423a7, 0xfc93a039,
   0x655b59c3, 0x8f0ccc92, 0xffeff47d, 0x85845dd1,
   0x6fa87e4f, 0xfe2ce6e0, 0xa3014314, 0x4e0811a1,
   0xf7537e82, 0xbd3af235, 0x2ad7d2bb, 0xeb86d391]

/-- The per-round left-rotation amounts of MD5 (RFC 1321). -/
def md5S : List Nat :=
  [7, 12, 17, 22, 7, 12, 17, 22, 7, 12, 17, 22, 7, 12, 17, 22,
   5, 9, 14, 20, 5, 9, 14, 20, 5, 9, 14, 20, 5, 9, 14, 20,
   4, 11, 16, 23, 4, 11, 16, 23, 4, 11, 16, 23, 4, 11, 16, 23,
   6, 10, 15, 21, 6, 10, 15, 21, 6, 10, 15, 21, 6, 10, 15, 21]

/-- Little-endian 32-bit words of a 64-byte block. -/
def leWords : List Nat → List Nat
  | b0 :: b1 :: b2 :: b3 :: rest =>
      (b0 + 256 * b1 + 65536 * b2 + 16777216 * b3) :: leWords rest
  | _ => []

/-- One of the 64 MD5 operations on the running state. -/
def md5Step (M : List Nat) (st : Nat × Nat × Nat × Nat) (i : Nat) :
    Nat × Nat × Nat × Nat :=
  let a := st.1
  let b := st.2.1
  let c := st.2.2.1
  let d := st.2.2.2
  let fg : Nat × Nat :=
    if i < 16 then ((b &&& c) ||| (c32 b &&& d), i)
    else if i < 32 then ((d &&& b) ||| (c32 d &&& c), (5 * i + 1) % 16)
    else if i < 48 then (b ^^^ c ^^^ d, (3 * i + 5) % 16)
    else (c ^^^ (b ||| c32 d), (7 * i) % 16)
  let f2 := (fg.1 + a + md5K.getD i 0 + M.getD fg.2 0) % 2 ^ 32
  (d, (b + rotl32 f2 (md5S.getD i 0)) % 2 ^ 32, b, c)

/-- Little-endian byte serialization of a 32-bit word. -/
def putUint32LE (n : Nat) : List Nat :=
  [n % 256, n / 256 % 256, n / 65536 % 256, n / 16777216 % 256]

/-- Little-endian byte serialization of a 64-bit value. -/
def putUint64LE (n : Nat) : List Nat :=
  putUint32LE (n % 2 ^ 32) ++ putUint32LE (n / 2 ^ 32 % 2 ^ 32)

/-- MD5 padding: a 1-bit, zeros to 56 mod 64, then the bit length. -/
def md5Pad (msg : List Nat) : List Nat :=
  let len := msg.length
  msg ++ 128 :: List.replicate ((119 - len % 64) % 64) 0
      ++ putUint64LE (8 * len % 2 ^ 64)

/-- Digest one 64-byte block into the running state. -/
def md5Block (block : List Nat) (st : Nat × Nat × Nat × Nat) :
    Nat × Nat × Nat × Nat :=
  let M := leWords block
  let r := (List.range 64).foldl (md5Step M) st
  ((st.1 + r.1) % 2 ^ 32, (st.2.1 + r.2.1) % 2 ^ 32,
   (st.2.2.1 + r.2.2.1) % 2 ^ 32, (st.2.2.2 + r.2.2.2) % 2 ^ 32)

/-- Fold over all 64-byte blocks; `fuel` bounds the recursion and any
value at least the message length is enough. -/
def md5Fold : Nat → List Nat → Nat × Nat × Nat × Nat → Nat × Nat × Nat × Nat
  | 0, _, st => st
  | _ + 1, [], st => st
  | fuel + 1, msg, st => md5Fold fuel (msg.drop 64) (md5Block (msg.take 64) st)

/-- Full MD5 digest of a byte string: 16 bytes. -/
def md5Digest (msg : List Nat) : List Nat :=
  let padded := md5Pad msg
  let st := md5Fold (padded.length + 1) padded
    (0x67452301, 0xefcdab89, 0x98badcfe, 0x10325476)
  putUint32LE st.1 ++ putUint32LE st.2.1 ++ putUint32LE st.2.2.1
    ++ putUint32LE st.2.2.2

/-- ASCII code of a lowercase hex digit. -/
def hexDigitCode (d : Nat) : Nat := if d < 10 then 48 + d else 87 + d

/-- The two hex-digit ASCII codes of one byte. -/
def hexByteCodes (b : Nat) : List Nat :=
  [hexDigitCode (b / 16 % 16), hexDigitCode (b % 16)]

/-- Source constant `HashLen = 16`: number of hex characters kept. -/
def HashLen : Nat := 16

/-- Model of `hashFilePath`: hex-encode the MD5 digest of the path's bytes
and keep the first `HashLen` (16) hex characters, i.e. the hex codes of the
first 8 digest bytes. The key is kept as its Go byte string. -/
def hashFilePath (filePath : String) : List Nat :=
  (((md5Digest (utf8Bytes filePath)).take (HashLen / 2)).map hexByteCodes).flatten

/-! ## Path canonicalization (model of filepath.Clean on slash-separated paths) -/

/-- Split a list on a separator element; the result is always nonempty. -/
def splitSep {α : Type} [DecidableEq α] (sep : α) : List α → List (List α)
  | [] => [[]]
  | c :: rest =>
    let r := splitSep sep rest
    if c = sep then [] :: r
    else
      match r with
      | [] => [[c]]
      | x :: xs => (c :: x) :: xs

/-- Segment processing of Go path.Clean: drop empty and dot segments, let a
dotdot segment pop the previous real segment, keep unpoppable dotdots only in
relative paths. The accumulator holds processed segments in reverse. -/
def cleanSegs (rooted : Bool) : List (List Char) → List (List Char) → List (List Char)
  | acc, [] => acc.reverse
  | acc, s :: rest =>
    if s = [] ∨ s = ['.'] then cleanSegs rooted acc rest
    else if s = ['.', '.'] then
      match acc with
      | [] => if rooted then cleanSegs rooted [] rest
              else cleanSegs rooted [['.', '.']] rest
      | a :: acc2 =>
          if a = ['.', '.'] then cleanSegs rooted (s :: a :: acc2) rest
          else cleanSegs rooted acc2 rest
    else cleanSegs rooted (s :: acc) rest

/-- Join path segments with slashes. -/
def joinSlash : List (List Char) → List Char
  | [] => []
  | [s] => s
  | s :: rest => s ++ '/' :: joinSlash rest

/-- Model of filepath.Clean (Unix semantics, where it coincides with
path.Clean): canonicalize a path by removing empty and dot segments and
resolving dotdot segments; an empty path cleans to a dot. -/
def filepathClean (p : String) : String :=
  if p = "" then "."
  else
    let cs := p.data
    let rooted := cs.head? = some '/'
    let body := joinSlash (cleanSegs rooted [] (splitSep '/' cs))
    if rooted then ⟨'/' :: body⟩
    else if body = [] then "."
    else ⟨body⟩

/-! ## Decimal integer codec (model of strconv with base 10, bit size 64) -/

/-- Decimal digit bytes of a natural number, most significant first; the
fuel argument only bounds the recursion and `n + 1` is always enough. -/
def natToDecAux : Nat → Nat → List Nat
  | 0, _ => []
  | fuel + 1, n =>
      if n < 10 then [48 + n]
      else natToDecAux fuel (n / 10) ++ [48 + n % 10]

/-- Model of strconv.FormatInt in base 10 for the non-negative offsets and
sizes the builder writes: ASCII decimal digit bytes. -/
def natToDecBytes (n : Nat) : List Nat := natToDecAux (n + 1) n

/-- Numeric value of a big-endian list of decimal digit bytes. -/
def decVal (l : List Nat) : Nat := l.foldl (fun a b => a * 10 + (b - 48)) 0

/-- Model of strconv.ParseInt(s, 10, 64): optional sign, at least one
decimal digit, and a signed 64-bit range check. -/
def parseInt64 (s : List Nat) : Option Int :=
  let sd : Bool × List Nat :=
    match s with
    | [] => (false, [])
    | b :: rest =>
      if b = 45 then (true, rest)
      else if b = 43 then (false, rest)
      else (false, b :: rest)
  let digs := sd.2
  if digs = [] then none
  else if digs.all (fun b => 48 ≤ b && b ≤ 57) then
    let v := decVal digs
    if sd.1 then (if v ≤ 2 ^ 63 then some (-(v : Int)) else none)
    else (if v < 2 ^ 63 then some (v : Int) else none)
  else none

/-! ## Big-endian 64-bit codec (model of encoding/binary BigEndian) -/

/-- Big-endian 8-byte serialization of a 64-bit value; values at or above
2 to the 64 are truncated just as the Go uint64 conversion truncates. -/
def putUint64BE (n : Nat) : List Nat :=
  [n / 2 ^ 56 % 256, n / 2 ^ 48 % 256, n / 2 ^ 40 % 256, n / 2 ^ 32 % 256,
   n / 2 ^ 24 % 256, n / 2 ^ 16 % 256, n / 2 ^ 8 % 256, n % 256]

/-- Big-endian value of a byte list (applied to exactly 8 bytes). -/
def readUint64BE (l : List Nat) : Nat := l.foldl (fun a b => a * 256 + b) 0

/-! ## Index data model -/

/-- Source structure FileIndex: payload start offset and byte size, both Go
int64. -/
structure FileIndex where
  Start : Int
  Size : Int
deriving DecidableEq, Repr

/-- Go map[string]FileIndex as an association list with unique keys; keys
are Go strings, i.e. byte lists. -/
abbrev IndexMap := List (List Nat × FileIndex)

/-- Source structure DataIndex wrapping the key-to-entry map. -/
structure DataIndex where
  Files : IndexMap
deriving DecidableEq, Repr

/-- Go map assignment: replace the binding in place when the key exists,
append otherwise (last write wins). -/
def mapInsert (m : IndexMap) (k : List Nat) (v : FileIndex) : IndexMap :=
  if m.any (fun p => p.1 = k) then m.map (fun p => if p.1 = k then (k, v) else p)
  else m ++ [(k, v)]

/-- Go map lookup. -/
def mapLookup (m : IndexMap) (k : List Nat) : Option FileIndex :=
  match m with
  | [] => none
  | (k2, v) :: rest => if k2 = k then some v else mapLookup rest k

/-! ## Errors -/

/-- File-handle level failures of the os.File model. -/
inductive FErr
  | closed
  | eof
  | negOffset
deriving DecidableEq, Repr

/-- Errors of the reader and of the CSV index codec, mirroring the error
returns of ixtar.go. -/
inductive IxErr
  | readHeaderFail (e : FErr)
  | readCSVFail (e : FErr)
  | csvBad
  | badRecordLen (n : Nat)
  | badStart
  | badSize
  | fileNotFound (p : String)
  | seekFail (e : FErr)
  | readDataFail (e : FErr)
deriving DecidableEq, Repr

/-! ## CSV index codec (model of parseCSVIndex over encoding/csv ReadAll)

The model covers the fragment of encoding/csv this format produces: fields
free of quote and carriage-return bytes. Data containing those bytes is
outside the modelled fragment and reported as a syntax error; the records
this library writes (hex keys and decimal numbers) never contain them. -/

/-- Model of csv.Reader.ReadAll on quote-free data: split into lines on the
newline byte, skip blank lines, split each line into fields on the comma
byte, and require a consistent field count across records (the
FieldsPerRecord default). -/
def readAllCSV (data : List Nat) : Except IxErr (List (List (List Nat))) :=
  if data.any (fun b => b = 13 || b = 34) then .error .csvBad
  else
    match ((splitSep 10 data).filter (fun l => l ≠ [])).map (splitSep 44) with
    | [] => .ok []
    | r0 :: rest =>
      if (r0 :: rest).all (fun r => r.length = r0.length) then .ok (r0 :: rest)
      else .error .csvBad

/-- Record loop of parseCSVIndex: each record must have exactly 3 fields,
the second and third must parse as int64, and the entry is assigned into
the map under the first field. -/
def parseRecords : List (List (List Nat)) → IndexMap → Except IxErr IndexMap
  | [], m => .ok m
  | record :: rest, m =>
    match record with
    | [hash, startF, sizeF] =>
      match parseInt64 startF, parseInt64 sizeF with
      | none, _ => .error .badStart
      | some _, none => .error .badSize
      | some start, some size => parseRecords rest (mapInsert m hash ⟨start, size⟩)
    | _ => .error (.badRecordLen record.length)

/-- Model of parseCSVIndex: decode the CSV bytes and fold the records into
the key-to-entry map. -/
def parseCSVIndex (csvData : List Nat) : Except IxErr DataIndex :=
  match readAllCSV csvData with
  | .error e => .error e
  | .ok records =>
    match parseRecords records [] with
    | .error e => .error e
    | .ok files => .ok ⟨files⟩

/-! ## File-handle model -/

/-- State of an os.File handle: contents, cursor position, closed flag. -/
structure GoFile where
  contents : List Nat
  pos : Nat
  closed : Bool
deriving DecidableEq, Repr

/-- Model of io.ReadFull into a buffer of length n: fails on a closed
handle, returns the n bytes at the cursor and advances it, and fails with
an end-of-file error when fewer than n bytes remain. -/
def GoFile.readFull (f : GoFile) (n : Nat) : Except FErr (List Nat × GoFile) :=
  if f.closed then .error .closed
  else if f.pos + n ≤ f.contents.length then
    .ok ((f.contents.drop f.pos).take n, { f with pos := f.pos + n })
  else .error .eof

/-- Model of File.Seek with io.SeekStart: fails on a closed handle or a
negative target offset, otherwise repositions the cursor. -/
def GoFile.seekStart (f : GoFile) (off : Int) : Except FErr GoFile :=
  if f.closed then .error .closed
  else if off < 0 then .error .negOffset
  else .ok { f with pos := off.toNat }

/-! ## Reader -/

/-- Source structure IxTar: parsed index, CSV byte length, open handle and
payload start offset (the bundlePath string field carries no behavior and
is omitted). -/
structure IxTar where
  index : DataIndex
  csvSize : Nat
  file : GoFile
  dataOffset : Nat
deriving DecidableEq, Repr

/-- Model of NewIxTar: open the bundle (its byte content is the model
input), read the 32-byte size field, take the big-endian value of its final
8 bytes as the CSV length, read and parse that many CSV bytes, and compute
dataOffset = 32 + csvSize. -/
def NewIxTar (bundle : List Nat) : Except IxErr IxTar :=
  match GoFile.readFull ⟨bundle, 0, false⟩ 32 with
  | .error e => .error (.readHeaderFail e)
  | .ok (hdr, f1) =>
    let csvSize := readUint64BE (hdr.drop 24)
    match f1.readFull csvSize with
    | .error e => .error (.readCSVFail e)
    | .ok (csvData, f2) =>
      match parseCSVIndex csvData with
      | .error e => .error e
      | .ok index => .ok ⟨index, csvSize, f2, 32 + csvSize⟩

/-- Model of Close: mark the underlying handle closed. -/
def Close (ix : IxTar) : IxTar := { ix with file := { ix.file with closed := true } }

/-- Model of ExtractBytesOfFile: clean the path, derive the key, look it up
in the in-memory index (not-found error when absent), seek the handle to
dataOffset + entry start and read exactly the entry size bytes. -/
def ExtractBytesOfFile (ix : IxTar) (filePath : String) :
    Except IxErr (List Nat × IxTar) :=
  match mapLookup ix.index.Files (hashFilePath (filepathClean filePath)) with
  | none => .error (.fileNotFound filePath)
  | some fileIndex =>
    match ix.file.seekStart ((ix.dataOffset : Int) + fileIndex.Start) with
    | .error e => .error (.seekFail e)
    | .ok f1 =>
      match f1.readFull fileIndex.Size.toNat with
      | .error e => .error (.readDataFail e)
      | .ok (data, f2) => .ok (data, { ix with file := f2 })

/-- Model of ListFiles: the stored keys, straight from the in-memory index
(the handle is not touched). -/
def ListFiles (ix : IxTar) : List (List Nat) := ix.index.Files.map (fun p => p.1)

/-- Model of Info: entry count and CSV byte length, straight from the
in-memory index (the handle is not touched). -/
def Info (ix : IxTar) : Nat × Nat := (ix.index.Files.length, ix.csvSize)

/-! ## Builder

The build walk is modelled by its sequence of regular files in walk order:
pairs of a relative path and the file's byte content. Directory entries and
other non-regular entries produce neither an index record nor payload bytes
in the source, so they do not appear in the model. The recorded size
(info.Size()) and the copied byte count agree because a file's content is
fixed during the build. -/

/-- One CSV record the builder writes: derived key, payload start offset,
byte size. -/
structure CSVRec where
  key : List Nat
  start : Nat
  size : Nat
deriving DecidableEq, Repr

/-- Phase 1 of CreateBundleWithProgress: walk the regular files in order,
hash each cleaned relative path, record (key, currentPos, size) and advance
currentPos by the bytes written. The hash function is explicit so that
collision behavior can be analyzed; the program instantiates it with
hashFilePath. -/
def buildRecords (h : String → List Nat) :
    List (String × List Nat) → Nat → List CSVRec
  | [], _ => []
  | (relPath, content) :: rest, pos =>
      ⟨h (filepathClean relPath), pos, content.length⟩
        :: buildRecords h rest (pos + content.length)

/-- One record line: three comma-separated fields. -/
def recLine (r : CSVRec) : List Nat :=
  r.key ++ 44 :: (natToDecBytes r.start ++ 44 :: natToDecBytes r.size)

/-- The three fields of one record as the CSV reader returns them. -/
def recFields (r : CSVRec) : List (List Nat) :=
  [r.key, natToDecBytes r.start, natToDecBytes r.size]

/-- Bytes of one CSV record as csv.Writer emits it: the record line
followed by a newline. -/
def encodeRecord (r : CSVRec) : List Nat := recLine r ++ [10]

/-- Bytes a key may contain so that csv.Writer emits it unquoted and the
quote-free reader fragment applies: no newline, carriage return, quote or
comma. Keys derived by hashFilePath are hex characters and always
qualify. -/
def keyByteOK (b : Nat) : Bool := !(b == 10 || b == 13 || b == 34 || b == 44)

/-- A key all of whose bytes are unproblematic for the CSV fragment. -/
def validKey (k : List Nat) : Bool := k.all keyByteOK

/-- The index map obtained by assigning every record in order (what
parseCSVIndex builds from the serialized records). -/
def mapOfRecords (recs : List CSVRec) : IndexMap :=
  recs.foldl (fun m r => mapInsert m r.key ⟨(r.start : Int), (r.size : Int)⟩) []

/-- Serialized index: the concatenated record lines. -/
def encodeCSV (recs : List CSVRec) : List Nat := (recs.map encodeRecord).flatten

/-- Payload region: concatenated contents of the regular files in walk
order. -/
def payloadBytes (t : List (String × List Nat)) : List Nat :=
  (t.map Prod.snd).flatten

/-- Sequential writes to the destination file, with failure injection: the
k-th write onward fails, and any failure aborts the remaining writes. The
Bool reports whether every write succeeded. -/
def runWrites : List Nat → List (List Nat) → Nat → List Nat × Bool
  | dest, [], _ => (dest, true)
  | dest, _ :: _, 0 => (dest, false)
  | dest, c :: cs, k + 1 => runWrites (dest ++ c) cs k

/-- The three writes of the assembly phase of CreateBundleWithProgress:
the 32-byte size field (24 zero bytes then the big-endian CSV length), the
CSV bytes, the payload bytes. -/
def bundleChunks (h : String → List Nat) (t : List (String × List Nat)) :
    List (List Nat) :=
  let csv := encodeCSV (buildRecords h t 0)
  [List.replicate 24 0 ++ putUint64BE csv.length, csv, payloadBytes t]

/-- Full successful build with an explicit hash function: all three
assembly writes succeed. -/
def createBundleH (h : String → List Nat) (t : List (String × List Nat)) :
    List Nat :=
  (runWrites [] (bundleChunks h t) 3).1

/-- Model of CreateBundle: the builder with the program's key derivation. -/
def CreateBundle (t : List (String × List Nat)) : List Nat :=
  createBundleH hashFilePath t

/-- Destination-path state of the assembly phase: os.Create(bundlePath)
replaces whatever was at the destination with an empty file before any
write happens; when os.Create itself fails the prior destination state is
untouched. Returns the destination state and whether the build succeeded. -/
def assembleDest (prior : Option (List Nat)) (createOk : Bool)
    (chunks : List (List Nat)) (failAfter : Nat) : Option (List Nat) × Bool :=
  if createOk then
    let r := runWrites [] chunks failAfter
    (some r.1, r.2)
  else (prior, false)

/-- Destination-path state after a build of tree t whose assembly phase
performs failAfter successful writes before failing (failAfter at or above
the chunk count means full success). -/
def buildDest (h : String → List Nat) (t : List (String × List Nat))
    (prior : Option (List Nat)) (createOk : Bool) (failAfter : Nat) :
    Option (List Nat) × Bool :=
  assembleDest prior createOk (bundleChunks h t) failAfter

/-- The reader state NewIxTar produces on a bundle built from tree t: the
parsed index, the index byte length, the open handle positioned right after
the index, and payloadStart = 32 + index length. -/
def builtIx (h : String → List Nat) (t : List (String × List Nat)) : IxTar :=
  ⟨⟨mapOfRecords (buildRecords h t 0)⟩,
   (encodeCSV (buildRecords h t 0)).length,
   ⟨createBundleH h t, 32 + (encodeCSV (buildRecords h t 0)).length, false⟩,
   32 + (encodeCSV (buildRecords h t 0)).length⟩

/-! ## Helper lemmas: big-endian codec -/

/-- Decoding the 8 big-endian bytes of a value below 2 to the 64 recovers
the value. -/
theorem readUint64BE_putUint64BE (n : Nat) (h : n < 2 ^ 64) :
    readUint64BE (putUint64BE n) = n := by
  simp only [readUint64BE, putUint64BE, List.foldl]
  omega

/-- The big-endian serialization always has 8 bytes. -/
theorem putUint64BE_length (n : Nat) : (putUint64BE n).length = 8 := rfl

/-! ## Helper lemmas: decimal codec -/

/-- Every byte emitted by the decimal encoder is a decimal digit byte. -/
theorem natToDecAux_digits :
    ∀ fuel n, n < fuel → ∀ b ∈ natToDecAux fuel n, 48 ≤ b ∧ b ≤ 57 := by
  intro fuel
  induction fuel with
  | zero => intro n hn; omega
  | succ f ih =>
    intro n hn b hb
    by_cases h10 : n < 10
    · simp only [natToDecAux, if_pos h10, List.mem_singleton] at hb
      omega
    · simp only [natToDecAux, if_neg h10, List.mem_append, List.mem_singleton] at hb
      rcases hb with hb | hb
      · exact ih (n / 10) (by omega) b hb
      · omega

/-- The decimal encoder never returns the empty list. -/
theorem natToDecAux_ne_nil (fuel n : Nat) (h : n < fuel) :
    natToDecAux fuel n ≠ [] := by
  cases fuel with
  | zero => omega
  | succ f =>
    by_cases h10 : n < 10
    · simp [natToDecAux, if_pos h10]
    · simp only [natToDecAux, if_neg h10]
      intro hc
      exact absurd (List.append_eq_nil.mp hc).2 (by simp)

/-- Value of a digit string with one more digit appended. -/
theorem decVal_append (l : List Nat) (b : Nat) :
    decVal (l ++ [b]) = decVal l * 10 + (b - 48) := by
  simp [decVal, List.foldl_append]

/-- The decimal encoder and the digit evaluator are mutually inverse. -/
theorem decVal_natToDecAux :
    ∀ fuel n, n < fuel → decVal (natToDecAux fuel n) = n := by
  intro fuel
  induction fuel with
  | zero => intro n hn; omega
  | succ f ih =>
    intro n hn
    by_cases h10 : n < 10
    · simp only [natToDecAux, if_pos h10, decVal, List.foldl]
      omega
    · simp only [natToDecAux, if_neg h10]
      rw [decVal_append, ih (n / 10) (by omega)]
      omega

/-- Parsing the decimal encoding of a natural number below 2 to the 63
recovers it (round trip through strconv). -/
theorem parseInt64_natToDecBytes (n : Nat) (h : n < 2 ^ 63) :
    parseInt64 (natToDecBytes n) = some (n : Int) := by
  have hne : natToDecBytes n ≠ [] := natToDecAux_ne_nil (n + 1) n (Nat.lt_succ_self n)
  have hdig : ∀ b ∈ natToDecBytes n, 48 ≤ b ∧ b ≤ 57 :=
    natToDecAux_digits (n + 1) n (Nat.lt_succ_self n)
  have hval : decVal (natToDecBytes n) = n :=
    decVal_natToDecAux (n + 1) n (Nat.lt_succ_self n)
  unfold parseInt64
  cases hl : natToDecBytes n with
  | nil => exact absurd hl hne
  | cons b rest =>
    have hb : 48 ≤ b ∧ b ≤ 57 := hdig b (by rw [hl]; exact List.mem_cons_self b rest)
    have hb45 : b ≠ 45 := by omega
    have hb43 : b ≠ 43 := by omega
    simp only [if_neg hb45, if_neg hb43]
    rw [if_neg (by simp)]
    have hall : (b :: rest).all (fun x => 48 ≤ x && x ≤ 57) = true := by
      rw [List.all_eq_true]
      intro x hx
      have := hdig x (by rw [hl]; exact hx)
      simp [this.1, this.2]
    rw [if_pos hall]
    have hv : decVal (b :: rest) = n := by rw [← hl, hval]
    simp only [hv]
    simp only [Bool.false_eq_true, if_false]
    rw [if_pos (by omega)]

/-! ## Helper lemmas: list splitting -/

/-- Splitting a list that does not contain the separator yields the list
itself as the only chunk. -/
theorem splitSep_not_mem {α : Type} [DecidableEq α] (sep : α) :
    ∀ l : List α, sep ∉ l → splitSep sep l = [l] := by
  intro l
  induction l with
  | nil => intro _; rfl
  | cons c rest ih =>
    intro h
    have hc : c ≠ sep := fun hc => h (hc ▸ List.mem_cons_self c rest)
    have hr : sep ∉ rest := fun hr => h (List.mem_cons_of_mem c hr)
    simp only [splitSep, if_neg hc, ih hr]

/-- Splitting peels off a separator-free first chunk. -/
theorem splitSep_append {α : Type} [DecidableEq α] (sep : α) :
    ∀ (x ys : List α), sep ∉ x →
      splitSep sep (x ++ sep :: ys) = x :: splitSep sep ys := by
  intro x
  induction x with
  | nil => intro ys _; simp [splitSep]
  | cons c rest ih =>
    intro ys h
    have hc : c ≠ sep := fun hc => h (hc ▸ List.mem_cons_self c rest)
    have hr : sep ∉ rest := fun hr => h (List.mem_cons_of_mem c hr)
    show splitSep sep (c :: (rest ++ sep :: ys)) = (c :: rest) :: splitSep sep ys
    simp only [splitSep, if_neg hc]
    rw [ih ys hr]

/-! ## Helper lemmas: CSV codec round trip -/

/-- Unfolding of the key-byte condition. -/
theorem keyByteOK_spec (b : Nat) :
    keyByteOK b = true ↔ b ≠ 10 ∧ b ≠ 13 ∧ b ≠ 34 ∧ b ≠ 44 := by
  simp only [keyByteOK, Bool.not_eq_true', Bool.or_eq_false_iff, beq_eq_false_iff_ne,
    ne_eq]
  tauto

/-- Digit bytes of decimal encodings. -/
theorem natToDecBytes_digits (n : Nat) :
    ∀ b ∈ natToDecBytes n, 48 ≤ b ∧ b ≤ 57 :=
  natToDecAux_digits (n + 1) n (Nat.lt_succ_self n)

/-- Every byte of a record line is a key byte, a comma or a digit. -/
theorem recLine_bytes (r : CSVRec) (b : Nat) (hb : b ∈ recLine r) :
    b ∈ r.key ∨ b = 44 ∨ (48 ≤ b ∧ b ≤ 57) := by
  unfold recLine at hb
  rcases List.mem_append.mp hb with h | h
  · exact Or.inl h
  · rcases List.mem_cons.mp h with h | h
    · exact Or.inr (Or.inl h)
    · rcases List.mem_append.mp h with h | h
      · exact Or.inr (Or.inr (natToDecBytes_digits r.start b h))
      · rcases List.mem_cons.mp h with h | h
        · exact Or.inr (Or.inl h)
        · exact Or.inr (Or.inr (natToDecBytes_digits r.size b h))

/-- Splitting a record line on commas recovers its three fields. -/
theorem splitSep_recLine (r : CSVRec) (hk : validKey r.key = true) :
    splitSep 44 (recLine r) = recFields r := by
  have hknc : (44 : Nat) ∉ r.key := by
    intro hmem
    have := (keyByteOK_spec 44).mp (List.all_eq_true.mp hk 44 hmem)
    exact this.2.2.2 rfl
  have hd1 : (44 : Nat) ∉ natToDecBytes r.start := by
    intro hmem; have := natToDecBytes_digits r.start 44 hmem; omega
  have hd2 : (44 : Nat) ∉ natToDecBytes r.size := by
    intro hmem; have := natToDecBytes_digits r.size 44 hmem; omega
  unfold recLine recFields
  rw [splitSep_append 44 r.key _ hknc, splitSep_append 44 _ _ hd1,
    splitSep_not_mem 44 _ hd2]

/-- A record line contains no newline byte. -/
theorem recLine_no_newline (r : CSVRec) (hk : validKey r.key = true) :
    (10 : Nat) ∉ recLine r := by
  intro hmem
  rcases recLine_bytes r 10 hmem with h | h | h
  · exact ((keyByteOK_spec 10).mp (List.all_eq_true.mp hk 10 h)).1 rfl
  · omega
  · omega

/-- A record line is never empty. -/
theorem recLine_ne_nil (r : CSVRec) : recLine r ≠ [] := by
  unfold recLine
  intro hc
  exact absurd (List.append_eq_nil.mp hc).2 (by simp)

/-- Splitting the serialized index on newlines yields the record lines and
one final empty chunk. -/
theorem splitSep_encodeCSV (recs : List CSVRec)
    (hk : ∀ r ∈ recs, validKey r.key = true) :
    splitSep 10 (encodeCSV recs) = recs.map recLine ++ [[]] := by
  induction recs with
  | nil => rfl
  | cons r rest ih =>
    have hr : validKey r.key = true := hk r (List.mem_cons_self r rest)
    have hrest : ∀ q ∈ rest, validKey q.key = true :=
      fun q hq => hk q (List.mem_cons_of_mem r hq)
    show splitSep 10 (encodeRecord r ++ encodeCSV rest) = _
    have : encodeRecord r ++ encodeCSV rest = recLine r ++ 10 :: encodeCSV rest := by
      simp [encodeRecord]
    rw [this, splitSep_append 10 _ _ (recLine_no_newline r hr), ih hrest]
    simp

/-- No byte of the serialized index is a carriage return or a quote. -/
theorem encodeCSV_bytes_ok (recs : List CSVRec)
    (hk : ∀ r ∈ recs, validKey r.key = true) :
    ((encodeCSV recs).any fun b => b = 13 || b = 34) = false := by
  rw [List.any_eq_false]
  intro b hb
  rcases List.mem_flatten.mp hb with ⟨l, hl, hbl⟩
  rcases List.mem_map.mp hl with ⟨r, hr, rfl⟩
  have hvk := hk r hr
  have hb13_34 : b ≠ 13 ∧ b ≠ 34 := by
    rcases List.mem_append.mp hbl with h | h
    · rcases recLine_bytes r b h with h | h | h
      · have := (keyByteOK_spec b).mp (List.all_eq_true.mp hvk b h)
        exact ⟨this.2.1, this.2.2.1⟩
      · omega
      · omega
    · rcases List.mem_cons.mp h with h | h
      · omega
      · simp at h
  simp [hb13_34.1, hb13_34.2]

/-- Reading back the serialized index yields exactly the field lists of the
records, in order. -/
theorem readAllCSV_encodeCSV (recs : List CSVRec)
    (hk : ∀ r ∈ recs, validKey r.key = true) :
    readAllCSV (encodeCSV recs) = .ok (recs.map recFields) := by
  have hfilter : (recs.map recLine ++ [[]]).filter (fun l => l ≠ []) = recs.map recLine := by
    rw [List.filter_append]
    have h1 : (recs.map recLine).filter (fun l => l ≠ []) = recs.map recLine := by
      rw [List.filter_eq_self]
      intro l hl
      rcases List.mem_map.mp hl with ⟨r, _, rfl⟩
      simp [recLine_ne_nil r]
    rw [h1]
    simp
  have hmap : (recs.map recLine).map (splitSep 44) = recs.map recFields := by
    rw [List.map_map]
    exact List.map_congr_left fun r hr => splitSep_recLine r (hk r hr)
  unfold readAllCSV
  rw [encodeCSV_bytes_ok recs hk]
  simp only [Bool.false_eq_true, if_false]
  rw [splitSep_encodeCSV recs hk, hfilter, hmap]
  cases hrecs : recs.map recFields with
  | nil => rfl
  | cons r0 rest =>
    have hall : ((r0 :: rest).all fun r => r.length = r0.length) = true := by
      rw [List.all_eq_true]
      intro x hx
      have hx3 : ∀ y ∈ recs.map recFields, y.length = 3 := by
        intro y hy
        rcases List.mem_map.mp hy with ⟨q, _, rfl⟩
        rfl
      have h0 : r0.length = 3 := hx3 r0 (by rw [hrecs]; exact List.mem_cons_self r0 rest)
      have hx' : x.length = 3 := hx3 x (by rw [hrecs]; exact hx)
      simp [hx', h0]
    show (if ((r0 :: rest).all fun r => r.length = r0.length) = true
          then Except.ok (r0 :: rest) else Except.error IxErr.csvBad) = Except.ok (r0 :: rest)
    rw [if_pos hall]

/-- Parsing the field lists of records with in-range offsets and sizes
succeeds and folds the records into the map in order. -/
theorem parseRecords_recFields (recs : List CSVRec)
    (hb : ∀ r ∈ recs, r.start < 2 ^ 63 ∧ r.size < 2 ^ 63) :
    ∀ m, parseRecords (recs.map recFields) m =
      .ok (recs.foldl (fun m r => mapInsert m r.key ⟨(r.start : Int), (r.size : Int)⟩) m) := by
  induction recs with
  | nil => intro m; rfl
  | cons r rest ih =>
    intro m
    have hr := hb r (List.mem_cons_self r rest)
    have hrest : ∀ q ∈ rest, q.start < 2 ^ 63 ∧ q.size < 2 ^ 63 :=
      fun q hq => hb q (List.mem_cons_of_mem r hq)
    have hstep : parseRecords ((r :: rest).map recFields) m =
        (match parseInt64 (natToDecBytes r.start), parseInt64 (natToDecBytes r.size) with
          | none, _ => Except.error IxErr.badStart
          | some _, none => Except.error IxErr.badSize
          | some s, some z =>
              parseRecords (rest.map recFields) (mapInsert m r.key (FileIndex.mk s z))) := rfl
    rw [hstep, parseInt64_natToDecBytes r.start hr.1, parseInt64_natToDecBytes r.size hr.2]
    show parseRecords (rest.map recFields) (mapInsert m r.key ⟨(r.start : Int), (r.size : Int)⟩) = _
    rw [ih hrest (mapInsert m r.key ⟨(r.start : Int), (r.size : Int)⟩)]
    rfl

/-- Full codec round trip: parsing the serialized index of valid records
yields the map of the records. -/
theorem parseCSVIndex_encodeCSV (recs : List CSVRec)
    (hk : ∀ r ∈ recs, validKey r.key = true)
    (hb : ∀ r ∈ recs, r.start < 2 ^ 63 ∧ r.size < 2 ^ 63) :
    parseCSVIndex (encodeCSV recs) = .ok ⟨mapOfRecords recs⟩ := by
  unfold parseCSVIndex
  rw [readAllCSV_encodeCSV recs hk]
  show (match parseRecords (recs.map recFields) [] with
        | Except.error e => Except.error e
        | Except.ok files => Except.ok (DataIndex.mk files))
      = Except.ok (DataIndex.mk (mapOfRecords recs))
  rw [parseRecords_recFields recs hb []]
  rfl

/-! ## Helper lemmas: Go map semantics -/

/-- Unfolding equation of lookup on a nonempty map. -/
theorem mapLookup_cons (p : List Nat × FileIndex) (rest : IndexMap) (k : List Nat) :
    mapLookup (p :: rest) k = if p.1 = k then some p.2 else mapLookup rest k := by
  cases p with
  | mk a b => rfl

/-- Looking up a key right after updating it in place finds the new value. -/
theorem mapLookup_map_update (k : List Nat) (v : FileIndex) :
    ∀ m : IndexMap, (m.any fun p => p.1 = k) = true →
      mapLookup (m.map fun p => if p.1 = k then (k, v) else p) k = some v := by
  intro m
  induction m with
  | nil => intro h; simp at h
  | cons p rest ih =>
    intro h
    rw [List.map_cons]
    by_cases hp : p.1 = k
    · rw [if_pos hp, mapLookup_cons, if_pos rfl]
    · have h' : (rest.any fun p => p.1 = k) = true := by
        simp only [List.any_cons, Bool.or_eq_true, decide_eq_true_eq] at h
        tauto
      rw [if_neg hp, mapLookup_cons, if_neg hp]
      exact ih h'

/-- Lookup walks past entries whose key does not match. -/
theorem mapLookup_append_of_no_hit (k : List Nat) (l2 : IndexMap) :
    ∀ m : IndexMap, (m.any fun p => p.1 = k) = false →
      mapLookup (m ++ l2) k = mapLookup l2 k := by
  intro m
  induction m with
  | nil => intro _; rfl
  | cons p rest ih =>
    intro h
    simp only [List.any_cons, Bool.or_eq_false_iff, decide_eq_false_iff_not] at h
    rw [List.cons_append, mapLookup_cons, if_neg h.1]
    exact ih (by simp [h.2])

/-- Assigning a key and looking it up returns the assigned value. -/
theorem mapLookup_mapInsert_self (m : IndexMap) (k : List Nat) (v : FileIndex) :
    mapLookup (mapInsert m k v) k = some v := by
  unfold mapInsert
  by_cases hany : (m.any fun p => p.1 = k) = true
  · rw [if_pos hany]
    exact mapLookup_map_update k v m hany
  · rw [if_neg hany]
    have hfalse : (m.any fun p => p.1 = k) = false := by
      cases hb : (m.any fun p => p.1 = k)
      · rfl
      · exact absurd hb hany
    rw [mapLookup_append_of_no_hit k _ m hfalse]
    rw [mapLookup_cons, if_pos rfl]

/-- Assigning one key leaves lookups of any other key unchanged. -/
theorem mapLookup_mapInsert_ne (k k2 : List Nat) (v : FileIndex) (h : k2 ≠ k) :
    ∀ m : IndexMap, mapLookup (mapInsert m k2 v) k = mapLookup m k := by
  intro m
  unfold mapInsert
  by_cases hany : (m.any fun p => p.1 = k2) = true
  · rw [if_pos hany]
    clear hany
    induction m with
    | nil => rfl
    | cons p rest ih =>
      rw [List.map_cons, mapLookup_cons]
      by_cases hp : p.1 = k2
      · have hpk : ¬p.1 = k := by rw [hp]; exact h
        rw [if_pos hp, mapLookup_cons, if_neg (show ¬((k2, v).1 = k) from h), ih,
          if_neg hpk]
      · rw [if_neg hp, mapLookup_cons]
        by_cases hpk : p.1 = k
        · rw [if_pos hpk, if_pos hpk]
        · rw [if_neg hpk, if_neg hpk, ih]
  · rw [if_neg hany]
    induction m with
    | nil =>
      show mapLookup [(k2, v)] k = mapLookup [] k
      rw [mapLookup_cons, if_neg (show ¬((k2, v).1 = k) from h)]
    | cons p rest ih =>
      have hany' : ¬(rest.any fun p => p.1 = k2) = true := by
        simp only [List.any_cons, Bool.or_eq_true] at hany
        tauto
      rw [List.cons_append, mapLookup_cons, mapLookup_cons]
      by_cases hpk : p.1 = k
      · rw [if_pos hpk, if_pos hpk]
      · rw [if_neg hpk, if_neg hpk]
        exact ih hany'

/-- Folding records whose keys all differ from k does not change the
lookup of k. -/
theorem mapLookup_foldl_not_mem (k : List Nat) :
    ∀ (l : List CSVRec), k ∉ (l.map fun r => r.key) →
      ∀ m : IndexMap,
        mapLookup (l.foldl (fun m r => mapInsert m r.key ⟨(r.start : Int), (r.size : Int)⟩) m) k
          = mapLookup m k := by
  intro l
  induction l with
  | nil => intro _ m; rfl
  | cons r rest ih =>
    intro h m
    have hr : r.key ≠ k := by
      intro hc
      exact h (by rw [← hc]; exact List.mem_cons_self _ _)
    have hrest : k ∉ rest.map fun q => q.key := by
      intro hc
      exact h (List.mem_cons_of_mem _ hc)
    rw [List.foldl_cons, ih hrest, mapLookup_mapInsert_ne k r.key _ hr]

/-- In the map built from a record list, a key bound by a record with no
later record for the same key holds that record's offset and size: the last
assignment wins. -/
theorem mapLookup_mapOfRecords_last (recs recs2 : List CSVRec) (r : CSVRec)
    (h : r.key ∉ recs2.map fun q => q.key) :
    mapLookup (mapOfRecords (recs ++ r :: recs2)) r.key
      = some ⟨(r.start : Int), (r.size : Int)⟩ := by
  unfold mapOfRecords
  rw [List.foldl_append, List.foldl_cons, mapLookup_foldl_not_mem r.key recs2 h]
  exact mapLookup_mapInsert_self _ r.key _

/-! ## Helper lemmas: builder layout -/

/-- Unfolding equation of the builder on one more regular file. -/
theorem buildRecords_cons (h : String → List Nat) (p : String) (c : List Nat)
    (rest : List (String × List Nat)) (pos : Nat) :
    buildRecords h ((p, c) :: rest) pos
      = CSVRec.mk (h (filepathClean p)) pos c.length
          :: buildRecords h rest (pos + c.length) := rfl

/-- The keys of the built records are the hashes of the cleaned paths, in
walk order. -/
theorem buildRecords_keys (h : String → List Nat) :
    ∀ (t : List (String × List Nat)) (pos : Nat),
      (buildRecords h t pos).map (fun r => r.key)
        = t.map fun e => h (filepathClean e.1) := by
  intro t
  induction t with
  | nil => intro pos; rfl
  | cons e rest ih =>
    intro pos
    cases e with
    | mk p c => simp only [buildRecords_cons, List.map_cons, ih]

/-- The builder records one entry per regular file. -/
theorem buildRecords_length (h : String → List Nat) :
    ∀ (t : List (String × List Nat)) (pos : Nat),
      (buildRecords h t pos).length = t.length := by
  intro t
  induction t with
  | nil => intro pos; rfl
  | cons e rest ih =>
    intro pos
    cases e with
    | mk p c => simp only [buildRecords_cons, List.length_cons, ih]

/-- The payload of a composite tree splits around any distinguished file. -/
theorem payloadBytes_split (t1 t2 : List (String × List Nat)) (e : String × List Nat) :
    payloadBytes (t1 ++ e :: t2) = payloadBytes t1 ++ (e.2 ++ payloadBytes t2) := by
  simp [payloadBytes]

/-- The records of a composite tree: records of the first part, then the
distinguished file at the running offset, then the rest shifted past it. -/
theorem buildRecords_split (h : String → List Nat) :
    ∀ (t1 : List (String × List Nat)) (e : String × List Nat)
      (t2 : List (String × List Nat)) (pos : Nat),
      buildRecords h (t1 ++ e :: t2) pos =
        buildRecords h t1 pos ++
          CSVRec.mk (h (filepathClean e.1)) (pos + (payloadBytes t1).length) e.2.length
            :: buildRecords h t2 (pos + (payloadBytes t1).length + e.2.length) := by
  intro t1
  induction t1 with
  | nil =>
    intro e t2 pos
    cases e with
    | mk p c => simp [buildRecords, payloadBytes]
  | cons f rest ih =>
    intro e t2 pos
    cases f with
    | mk p c =>
      show buildRecords h ((p, c) :: (rest ++ e :: t2)) pos = _
      rw [buildRecords_cons, ih e t2 (pos + c.length)]
      have hlen : (payloadBytes ((p, c) :: rest)).length
          = c.length + (payloadBytes rest).length := by
        simp [payloadBytes]
      simp only [List.cons_append, hlen]
      have harith1 : pos + c.length + (payloadBytes rest).length
          = pos + (c.length + (payloadBytes rest).length) := by omega
      rw [harith1, buildRecords_cons h p c rest pos]
      simp only [List.cons_append]

/-- Every built record starts at or after the running offset and its range
ends inside the payload written from that offset on. -/
theorem buildRecords_bounds (h : String → List Nat) :
    ∀ (t : List (String × List Nat)) (pos : Nat) (r : CSVRec),
      r ∈ buildRecords h t pos →
        pos ≤ r.start ∧ r.start + r.size ≤ pos + (payloadBytes t).length := by
  intro t
  induction t with
  | nil => intro pos r hr; simp [buildRecords] at hr
  | cons e rest ih =>
    intro pos r hr
    cases e with
    | mk p c =>
      have hlen : (payloadBytes ((p, c) :: rest)).length
          = c.length + (payloadBytes rest).length := by
        simp [payloadBytes]
      rcases List.mem_cons.mp hr with hr | hr
      · subst hr
        simp only [hlen]
        omega
      · have := ih (pos + c.length) r hr
        simp only [hlen]
        omega

/-- Record ranges are laid out in strictly increasing order: each record
ends at or before the next one starts. -/
theorem buildRecords_pairwise (h : String → List Nat) :
    ∀ (t : List (String × List Nat)) (pos : Nat),
      List.Pairwise (fun a b => a.start + a.size ≤ b.start) (buildRecords h t pos) := by
  intro t
  induction t with
  | nil => intro pos; exact List.Pairwise.nil
  | cons e rest ih =>
    intro pos
    cases e with
    | mk p c =>
      refine List.Pairwise.cons ?_ (ih (pos + c.length))
      intro r hr
      have := buildRecords_bounds h rest (pos + c.length) r hr
      show pos + c.length ≤ r.start
      omega

/-! ## Helper lemmas: file-handle steps and bundle opening -/

/-- Reading from an open handle with enough bytes left returns the slice at
the cursor and advances the cursor. -/
theorem readFull_of_open (contents : List Nat) (pos n : Nat)
    (hfit : pos + n ≤ contents.length) :
    GoFile.readFull ⟨contents, pos, false⟩ n
      = .ok ((contents.drop pos).take n, ⟨contents, pos + n, false⟩) := by
  unfold GoFile.readFull
  rw [if_neg (by simp), if_pos hfit]

/-- Seeking an open handle to a non-negative offset repositions the
cursor. -/
theorem seekStart_of_open (contents : List Nat) (pos : Nat) (off : Int)
    (hoff : 0 ≤ off) :
    GoFile.seekStart ⟨contents, pos, false⟩ off = .ok ⟨contents, off.toNat, false⟩ := by
  unfold GoFile.seekStart
  rw [if_neg (by simp), if_neg (by omega)]

/-- Seeking a closed handle fails with the closed-handle error. -/
theorem seekStart_of_closed (contents : List Nat) (pos : Nat) (off : Int) :
    GoFile.seekStart ⟨contents, pos, true⟩ off = .error .closed := by
  unfold GoFile.seekStart
  rw [if_pos (by simp)]

/-- The dest bytes of a fully successful three-chunk assembly, i.e. the
built bundle: size field, then index, then payload. -/
theorem createBundleH_eq (h : String → List Nat) (t : List (String × List Nat)) :
    createBundleH h t =
      (List.replicate 24 0 ++ putUint64BE (encodeCSV (buildRecords h t 0)).length)
        ++ encodeCSV (buildRecords h t 0) ++ payloadBytes t := rfl

/-- Opening any byte string shaped like a bundle: 24 arbitrary leading
bytes, the big-endian index length, a parseable index, and arbitrary
trailing bytes. The leading 24 bytes play no role; payloadStart is
32 plus the index length. -/
theorem NewIxTar_layout (junk : List Nat) (hjunk : junk.length = 24)
    (csv rest : List Nat) (hL : csv.length < 2 ^ 64)
    (idx : DataIndex) (hparse : parseCSVIndex csv = .ok idx) :
    NewIxTar ((junk ++ putUint64BE csv.length) ++ csv ++ rest)
      = .ok ⟨idx, csv.length,
          ⟨(junk ++ putUint64BE csv.length) ++ csv ++ rest, 32 + csv.length, false⟩,
          32 + csv.length⟩ := by
  have hdrlen : (junk ++ putUint64BE csv.length).length = 32 := by
    simp [putUint64BE, hjunk]
  have hassoc : (junk ++ putUint64BE csv.length) ++ csv ++ rest
      = (junk ++ putUint64BE csv.length) ++ (csv ++ rest) := by
    rw [List.append_assoc]
  have hBlen : ((junk ++ putUint64BE csv.length) ++ csv ++ rest).length
      = 32 + (csv.length + rest.length) := by
    simp [hjunk, putUint64BE]
    omega
  have h1 : GoFile.readFull ⟨(junk ++ putUint64BE csv.length) ++ csv ++ rest, 0, false⟩ 32
      = .ok ((junk ++ putUint64BE csv.length),
             ⟨(junk ++ putUint64BE csv.length) ++ csv ++ rest, 32, false⟩) := by
    rw [readFull_of_open _ 0 32 (by omega)]
    rw [List.drop_zero, hassoc, ← hdrlen, List.take_left]
    rw [hdrlen]
  have hdrop24 : (junk ++ putUint64BE csv.length).drop 24 = putUint64BE csv.length := by
    rw [← hjunk, List.drop_left]
  have h2 : GoFile.readFull
      ⟨(junk ++ putUint64BE csv.length) ++ csv ++ rest, 32, false⟩ csv.length
      = .ok (csv, ⟨(junk ++ putUint64BE csv.length) ++ csv ++ rest,
                   32 + csv.length, false⟩) := by
    rw [readFull_of_open _ 32 csv.length (by omega)]
    have hdrop32 : ((junk ++ putUint64BE csv.length) ++ csv ++ rest).drop 32
        = csv ++ rest := by
      rw [hassoc, ← hdrlen, List.drop_left]
    rw [hdrop32, List.take_left]
  unfold NewIxTar
  rw [h1]
  show (match GoFile.readFull
          ⟨(junk ++ putUint64BE csv.length) ++ csv ++ rest, 32, false⟩
          (readUint64BE ((junk ++ putUint64BE csv.length).drop 24)) with
        | Except.error e => Except.error (IxErr.readCSVFail e)
        | Except.ok (csvData, f2) =>
          match parseCSVIndex csvData with
          | Except.error e => Except.error e
          | Except.ok index =>
            Except.ok (IxTar.mk index
              (readUint64BE ((junk ++ putUint64BE csv.length).drop 24)) f2
              (32 + readUint64BE ((junk ++ putUint64BE csv.length).drop 24)))) = _
  rw [hdrop24, readUint64BE_putUint64BE csv.length hL, h2]
  show (match parseCSVIndex csv with
        | Except.error e => Except.error e
        | Except.ok index =>
          Except.ok (IxTar.mk index csv.length
            (GoFile.mk ((junk ++ putUint64BE csv.length) ++ csv ++ rest)
              (32 + csv.length) false)
            (32 + csv.length))) = _
  rw [hparse]

/-! ## Helper lemmas: derived keys are CSV-safe -/

/-- Hex digit codes are at or above the code of the zero digit. -/
theorem hexDigitCode_ge (d : Nat) : 48 ≤ hexDigitCode d := by
  unfold hexDigitCode
  split
  · omega
  · omega

/-- Any byte at or above 48 is a harmless key byte. -/
theorem keyByteOK_of_ge (b : Nat) (h : 48 ≤ b) : keyByteOK b = true := by
  rw [keyByteOK_spec]
  omega

/-- Keys derived by hashFilePath are valid CSV keys: all their bytes are
hex character codes. -/
theorem hashFilePath_validKey (s : String) : validKey (hashFilePath s) = true := by
  unfold validKey
  rw [List.all_eq_true]
  intro b hb
  unfold hashFilePath at hb
  rcases List.mem_flatten.mp hb with ⟨l, hl, hbl⟩
  rcases List.mem_map.mp hl with ⟨byte, _, rfl⟩
  unfold hexByteCodes at hbl
  rcases List.mem_cons.mp hbl with h | h
  · exact keyByteOK_of_ge b (h ▸ hexDigitCode_ge _)
  · rcases List.mem_cons.mp h with h | h
    · exact keyByteOK_of_ge b (h ▸ hexDigitCode_ge _)
    · simp at h

/-- All keys the real builder emits are valid CSV keys. -/
theorem buildRecords_validKeys (t : List (String × List Nat)) (pos : Nat) :
    ∀ r ∈ buildRecords hashFilePath t pos, validKey r.key = true := by
  intro r hr
  have hmem : r.key ∈ (buildRecords hashFilePath t pos).map (fun r => r.key) :=
    List.mem_map_of_mem _ hr
  rw [buildRecords_keys] at hmem
  rcases List.mem_map.mp hmem with ⟨e, _, heq⟩
  rw [← heq]
  exact hashFilePath_validKey _

/-! ## Helper lemmas: assembly writes -/

/-- Closed form of the sequential write loop: the destination receives the
flattened successfully written chunks, and the build succeeds exactly when
no write was left to fail. -/
theorem runWrites_eq :
    ∀ (chunks : List (List Nat)) (dest : List Nat) (k : Nat),
      runWrites dest chunks k
        = (dest ++ (chunks.take k).flatten, decide (chunks.length ≤ k)) := by
  intro chunks
  induction chunks with
  | nil => intro dest k; simp [runWrites]
  | cons c cs ih =>
    intro dest k
    cases k with
    | zero => simp [runWrites]
    | succ k2 =>
      show runWrites (dest ++ c) cs k2 = _
      rw [ih (dest ++ c) k2]
      simp [List.append_assoc]

/-! ## Helper lemmas: opening a built bundle and extracting -/

/-- Opening the bundle built from any tree succeeds and yields the expected
reader state, provided every derived key is CSV-safe, the payload fits an
int64, and the index length fits the 64-bit size field. -/
theorem NewIxTar_createBundleH (h : String → List Nat) (t : List (String × List Nat))
    (hk : ∀ r ∈ buildRecords h t 0, validKey r.key = true)
    (hP : (payloadBytes t).length < 2 ^ 63)
    (hL : (encodeCSV (buildRecords h t 0)).length < 2 ^ 64) :
    NewIxTar (createBundleH h t) = .ok (builtIx h t) := by
  have hbounds : ∀ r ∈ buildRecords h t 0, r.start < 2 ^ 63 ∧ r.size < 2 ^ 63 := by
    intro r hr
    have := buildRecords_bounds h t 0 r hr
    omega
  have hparse := parseCSVIndex_encodeCSV (buildRecords h t 0) hk hbounds
  have hlay := NewIxTar_layout (List.replicate 24 0) (by simp)
    (encodeCSV (buildRecords h t 0)) (payloadBytes t) hL
    ⟨mapOfRecords (buildRecords h t 0)⟩ hparse
  rw [createBundleH_eq]
  exact hlay

/-- Extraction when the key is found: the reader seeks to
dataOffset + entry start and reads exactly the entry size bytes, returning
that slice of the underlying contents verbatim, independent of the prior
cursor position. -/
theorem ExtractBytesOfFile_found (idx : DataIndex) (cs : Nat) (contents : List Nat)
    (pos0 : Nat) (off : Nat) (p : String) (e : FileIndex)
    (hfound : mapLookup idx.Files (hashFilePath (filepathClean p)) = some e)
    (hoff : 0 ≤ (off : Int) + e.Start)
    (hfit : ((off : Int) + e.Start).toNat + e.Size.toNat ≤ contents.length) :
    ExtractBytesOfFile ⟨idx, cs, ⟨contents, pos0, false⟩, off⟩ p
      = .ok ((contents.drop ((off : Int) + e.Start).toNat).take e.Size.toNat,
             ⟨idx, cs,
              ⟨contents, ((off : Int) + e.Start).toNat + e.Size.toNat, false⟩, off⟩) := by
  have h1 : GoFile.seekStart ⟨contents, pos0, false⟩ ((off : Int) + e.Start)
      = .ok ⟨contents, ((off : Int) + e.Start).toNat, false⟩ :=
    seekStart_of_open _ _ _ hoff
  have h2 : GoFile.readFull ⟨contents, ((off : Int) + e.Start).toNat, false⟩ e.Size.toNat
      = .ok ((contents.drop ((off : Int) + e.Start).toNat).take e.Size.toNat,
             ⟨contents, ((off : Int) + e.Start).toNat + e.Size.toNat, false⟩) :=
    readFull_of_open _ _ _ hfit
  simp only [ExtractBytesOfFile, hfound, h1, h2]

/-- Extraction when the derived key is absent from the in-memory index
fails with the not-found error before touching the handle. -/
theorem ExtractBytesOfFile_not_found (ix : IxTar) (p : String)
    (h : mapLookup ix.index.Files (hashFilePath (filepathClean p)) = none) :
    ExtractBytesOfFile ix p = .error (.fileNotFound p) := by
  simp only [ExtractBytesOfFile, h]

/-- Round trip core: extracting any regular file of the tree from the
opened built bundle returns exactly its content, provided the derived keys
of the tree's files are pairwise distinct. -/
theorem extract_from_built (t : List (String × List Nat))
    (hP : (payloadBytes t).length < 2 ^ 63)
    (hL : (encodeCSV (buildRecords hashFilePath t 0)).length < 2 ^ 64)
    (hnodup : (t.map fun e => hashFilePath (filepathClean e.1)).Nodup)
    (p : String) (C : List Nat) (hmem : (p, C) ∈ t) :
    ∃ ix2, ExtractBytesOfFile (builtIx hashFilePath t) p = .ok (C, ix2) := by
  obtain ⟨t1, t2, rfl⟩ := List.append_of_mem hmem
  have hsplitRec := buildRecords_split hashFilePath t1 (p, C) t2 0
  have hPsplit := payloadBytes_split t1 t2 (p, C)
  -- the derived key of p does not recur among the later records
  simp only [List.map_append, List.map_cons] at hnodup
  have htail : ((fun e => hashFilePath (filepathClean e.1)) ((p, C) : String × List Nat)
      :: t2.map fun e => hashFilePath (filepathClean e.1)).Nodup :=
    hnodup.sublist (List.sublist_append_right _ _)
  have hknot : hashFilePath (filepathClean p)
      ∉ t2.map fun e => hashFilePath (filepathClean e.1) :=
    (List.nodup_cons.mp htail).1
  have hknotrec : (CSVRec.mk (hashFilePath (filepathClean ((p, C) : String × List Nat).1))
        (0 + (payloadBytes t1).length) C.length).key
      ∉ (buildRecords hashFilePath t2
          (0 + (payloadBytes t1).length + C.length)).map fun r => r.key := by
    rw [buildRecords_keys]
    exact hknot
  -- index lookup resolves to the record of p
  have hlook : mapLookup
      (mapOfRecords (buildRecords hashFilePath (t1 ++ (p, C) :: t2) 0))
      (hashFilePath (filepathClean p))
      = some ⟨((0 + (payloadBytes t1).length : Nat) : Int), ((C.length : Nat) : Int)⟩ := by
    rw [hsplitRec]
    exact mapLookup_mapOfRecords_last _ _ _ hknotrec
  -- length bookkeeping
  have hblen : (createBundleH hashFilePath (t1 ++ (p, C) :: t2)).length
      = 32 + (encodeCSV (buildRecords hashFilePath (t1 ++ (p, C) :: t2) 0)).length
          + (payloadBytes (t1 ++ (p, C) :: t2)).length := by
    rw [createBundleH_eq]
    simp [putUint64BE]
    omega
  have hPlen : (payloadBytes (t1 ++ (p, C) :: t2)).length
      = (payloadBytes t1).length + (C.length + (payloadBytes t2).length) := by
    rw [hPsplit]
    simp
  -- the entry that the lookup found
  have hoff : (0 : Int) ≤ ((32 + (encodeCSV (buildRecords hashFilePath
      (t1 ++ (p, C) :: t2) 0)).length : Nat) : Int)
      + (((0 + (payloadBytes t1).length : Nat) : Int)) := by
    omega
  have htoNat : (((32 + (encodeCSV (buildRecords hashFilePath
      (t1 ++ (p, C) :: t2) 0)).length : Nat) : Int)
      + (((0 + (payloadBytes t1).length : Nat) : Int))).toNat
      = 32 + (encodeCSV (buildRecords hashFilePath (t1 ++ (p, C) :: t2) 0)).length
          + (payloadBytes t1).length := by
    omega
  have hfit : (((32 + (encodeCSV (buildRecords hashFilePath
      (t1 ++ (p, C) :: t2) 0)).length : Nat) : Int)
      + (((0 + (payloadBytes t1).length : Nat) : Int))).toNat
      + (((C.length : Nat) : Int)).toNat
      ≤ (createBundleH hashFilePath (t1 ++ (p, C) :: t2)).length := by
    rw [htoNat, hblen, hPlen]
    omega
  have hfound := ExtractBytesOfFile_found
    ⟨mapOfRecords (buildRecords hashFilePath (t1 ++ (p, C) :: t2) 0)⟩
    (encodeCSV (buildRecords hashFilePath (t1 ++ (p, C) :: t2) 0)).length
    (createBundleH hashFilePath (t1 ++ (p, C) :: t2))
    (32 + (encodeCSV (buildRecords hashFilePath (t1 ++ (p, C) :: t2) 0)).length)
    (32 + (encodeCSV (buildRecords hashFilePath (t1 ++ (p, C) :: t2) 0)).length)
    p
    ⟨((0 + (payloadBytes t1).length : Nat) : Int), ((C.length : Nat) : Int)⟩
    hlook hoff hfit
  -- the slice read back is exactly the file content
  have hslice : ((createBundleH hashFilePath (t1 ++ (p, C) :: t2)).drop
        ((((32 + (encodeCSV (buildRecords hashFilePath
          (t1 ++ (p, C) :: t2) 0)).length : Nat) : Int)
          + (((0 + (payloadBytes t1).length : Nat) : Int))).toNat)).take
        ((((C.length : Nat) : Int)).toNat)
      = C := by
    rw [htoNat]
    have hsz : (((C.length : Nat) : Int)).toNat = C.length := by omega
    rw [hsz, createBundleH_eq]
    have hAlen : ((List.replicate 24 0
        ++ putUint64BE (encodeCSV (buildRecords hashFilePath
            (t1 ++ (p, C) :: t2) 0)).length)
        ++ encodeCSV (buildRecords hashFilePath (t1 ++ (p, C) :: t2) 0)).length
        = 32 + (encodeCSV (buildRecords hashFilePath (t1 ++ (p, C) :: t2) 0)).length := by
      simp [putUint64BE]
      omega
    have hsum : 32 + (encodeCSV (buildRecords hashFilePath (t1 ++ (p, C) :: t2) 0)).length
        + (payloadBytes t1).length
        = ((List.replicate 24 0
            ++ putUint64BE (encodeCSV (buildRecords hashFilePath
                (t1 ++ (p, C) :: t2) 0)).length)
            ++ encodeCSV (buildRecords hashFilePath (t1 ++ (p, C) :: t2) 0)).length
          + (payloadBytes t1).length := by
      rw [hAlen]
    rw [hsum, List.drop_add, List.drop_left, hPsplit,
      List.drop_left' rfl, List.take_left]
  rw [hslice] at hfound
  exact ⟨_, hfound⟩

/-! ## Claim theorems -/

/-- C1: for every source tree whose regular files have pairwise distinct
derived keys (which truncated-MD5 hashing gives for any tree without a hash
collision), and whose payload and index respect the int64 and uint64 ranges
of the format, after CreateBundle and NewIxTar succeed, extracting any
regular file by its path returns exactly its content, byte for byte. -/
theorem createBundle_roundTrip (t : List (String × List Nat))
    (hP : (payloadBytes t).length < 2 ^ 63)
    (hL : (encodeCSV (buildRecords hashFilePath t 0)).length < 2 ^ 64)
    (hnodup : (t.map fun e => hashFilePath (filepathClean e.1)).Nodup) :
    ∃ ix, NewIxTar (CreateBundle t) = .ok ix
      ∧ ∀ p C, (p, C) ∈ t → ∃ ix2, ExtractBytesOfFile ix p = .ok (C, ix2) := by
  refine ⟨builtIx hashFilePath t, ?_, ?_⟩
  · exact NewIxTar_createBundleH hashFilePath t (buildRecords_validKeys t 0) hP hL
  · intro p C hmem
    exact extract_from_built t hP hL hnodup p C hmem

/-- Witness for C1 at the one-file tree with path a.txt and content
[104, 105]. -/
theorem createBundle_roundTrip_witness :
    ((payloadBytes [("a.txt", [104, 105])]).length < 2 ^ 63
      ∧ (encodeCSV (buildRecords hashFilePath [("a.txt", [104, 105])] 0)).length < 2 ^ 64
      ∧ ([("a.txt", [104, 105])].map fun e => hashFilePath (filepathClean e.1)).Nodup)
    ∧ (∃ ix, NewIxTar (CreateBundle [("a.txt", [104, 105])]) = .ok ix
        ∧ ∀ p C, (p, C) ∈ [("a.txt", [104, 105])] →
            ∃ ix2, ExtractBytesOfFile ix p = .ok (C, ix2)) :=
  ⟨⟨by decide, by decide, by simp⟩,
   createBundle_roundTrip [("a.txt", [104, 105])] (by decide) (by decide) (by simp)⟩

/-- C2 evidence: the builder performs no duplicate-key check. Even when two
distinct paths of the tree collide under the key derivation, every build
write succeeds (the walk loop has no collision failure path) and the
resulting bundle opens without error, so the build neither aborts with a
collision error nor withholds a usable bundle. -/
theorem collision_build_succeeds (h : String → List Nat)
    (t : List (String × List Nat)) (p1 p2 : String) (D1 D2 : List Nat)
    (_hm1 : (p1, D1) ∈ t) (_hm2 : (p2, D2) ∈ t) (_hne : p1 ≠ p2)
    (_hcol : h (filepathClean p1) = h (filepathClean p2))
    (hk : ∀ r ∈ buildRecords h t 0, validKey r.key = true)
    (hP : (payloadBytes t).length < 2 ^ 63)
    (hL : (encodeCSV (buildRecords h t 0)).length < 2 ^ 64) :
    buildDest h t none true 3 = (some (createBundleH h t), true)
    ∧ ∃ ix, NewIxTar (createBundleH h t) = .ok ix :=
  ⟨rfl, ⟨builtIx h t, NewIxTar_createBundleH h t hk hP hL⟩⟩

/-- Witness for C2 at a constant key derivation colliding the two files of a
two-file tree. -/
theorem collision_build_succeeds_witness :
    ((("a", [1]) ∈ [(("a" : String), ([1] : List Nat)), ("b", [2, 3])])
      ∧ (("b", [2, 3]) ∈ [(("a" : String), ([1] : List Nat)), ("b", [2, 3])])
      ∧ ("a" : String) ≠ "b"
      ∧ (fun _ : String => ([107] : List Nat)) (filepathClean "a")
          = (fun _ : String => ([107] : List Nat)) (filepathClean "b"))
    ∧ (buildDest (fun _ => [107]) [("a", [1]), ("b", [2, 3])] none true 3
        = (some (createBundleH (fun _ => [107]) [("a", [1]), ("b", [2, 3])]), true)
      ∧ ∃ ix, NewIxTar (createBundleH (fun _ => [107]) [("a", [1]), ("b", [2, 3])])
          = .ok ix) :=
  ⟨⟨by simp, by simp, by decide, rfl⟩,
   collision_build_succeeds (fun _ => [107]) [("a", [1]), ("b", [2, 3])]
     "a" "b" [1] [2, 3] (by simp) (by simp) (by decide) rfl
     (by decide) (by decide) (by decide)⟩

/-- C3 counterexample: a build of a one-file tree over a prior valid bundle
(the empty-tree bundle) that fails after its first assembly write returns
an error, yet the destination holds a partial new bundle: it is neither
absent nor the prior bundle. -/
theorem buildFailure_leaves_partial_file :
    (buildDest hashFilePath [("a.txt", [1, 2, 3])] (some (CreateBundle [])) true 1).2 = false
    ∧ (buildDest hashFilePath [("a.txt", [1, 2, 3])] (some (CreateBundle [])) true 1).1 ≠ none
    ∧ (buildDest hashFilePath [("a.txt", [1, 2, 3])] (some (CreateBundle [])) true 1).1
        ≠ some (CreateBundle []) := by
  refine ⟨rfl, ?_, ?_⟩
  · decide
  · decide

/-- C3 amended: scratch data is staged in temp files, but the assembly
phase writes directly to the destination path, which os.Create truncates
first; a failure after k of the three assembly writes leaves the first k
chunks of the new bundle at the destination (a partial bundle), and only
when the creation of the destination file itself fails is the prior
destination state preserved. -/
theorem buildFailure_dest_state (h : String → List Nat)
    (t : List (String × List Nat)) (prior : Option (List Nat)) (k : Nat)
    (hk3 : k < 3) :
    buildDest h t prior false k = (prior, false)
    ∧ buildDest h t prior true k
        = (some (((bundleChunks h t).take k).flatten), false) := by
  constructor
  · rfl
  · unfold buildDest assembleDest
    rw [if_pos rfl, runWrites_eq]
    have hlen : (bundleChunks h t).length = 3 := rfl
    rw [hlen]
    have hdec : decide (3 ≤ k) = false := by
      rw [decide_eq_false_iff_not]
      omega
    rw [hdec, List.nil_append]

/-- Witness for C3's amended statement at a failure after the first write. -/
theorem buildFailure_dest_state_witness :
    (1 < 3)
    ∧ (buildDest (fun _ => [107]) [("a", [1])] none false 1 = (none, false)
      ∧ buildDest (fun _ => [107]) [("a", [1])] none true 1
          = (some (((bundleChunks (fun _ => [107]) [("a", [1])]).take 1).flatten),
             false)) :=
  ⟨by decide,
   buildFailure_dest_state (fun _ => [107]) [("a", [1])] none 1 (by decide)⟩

/-- C4: when the derived key of the requested path is present in the index
with entry e, extraction seeks the handle to dataOffset + e.Start
(regardless of the prior cursor position), reads exactly e.Size bytes, and
returns that slice of the underlying bytes verbatim, leaving the cursor
right after the slice: a single seek and read, no scan. -/
theorem extract_seeks_and_reads (idx : DataIndex) (cs : Nat) (contents : List Nat)
    (pos0 : Nat) (off : Nat) (p : String) (e : FileIndex)
    (hfound : mapLookup idx.Files (hashFilePath (filepathClean p)) = some e)
    (hoff : 0 ≤ (off : Int) + e.Start)
    (hfit : ((off : Int) + e.Start).toNat + e.Size.toNat ≤ contents.length) :
    ExtractBytesOfFile ⟨idx, cs, ⟨contents, pos0, false⟩, off⟩ p
      = .ok ((contents.drop ((off : Int) + e.Start).toNat).take e.Size.toNat,
             ⟨idx, cs,
              ⟨contents, ((off : Int) + e.Start).toNat + e.Size.toNat, false⟩, off⟩) :=
  ExtractBytesOfFile_found idx cs contents pos0 off p e hfound hoff hfit

/-- Witness for C4 at a concrete reader whose index holds the key of
a.txt with entry (start 1, size 2) over a five-byte contents list. -/
theorem extract_seeks_and_reads_witness :
    (mapLookup [(hashFilePath (filepathClean "a.txt"), FileIndex.mk 1 2)]
        (hashFilePath (filepathClean "a.txt")) = some (FileIndex.mk 1 2)
      ∧ (0 : Int) ≤ (1 : Nat) + (1 : Int)
      ∧ (((1 : Nat) : Int) + (1 : Int)).toNat + (2 : Int).toNat ≤ ([9, 8, 7, 6, 5] : List Nat).length)
    ∧ ExtractBytesOfFile
        ⟨⟨[(hashFilePath (filepathClean "a.txt"), FileIndex.mk 1 2)]⟩, 6,
         ⟨[9, 8, 7, 6, 5], 0, false⟩, 1⟩ "a.txt"
      = .ok ((([9, 8, 7, 6, 5] : List Nat).drop
            ((((1 : Nat) : Int) + (FileIndex.mk 1 2).Start).toNat)).take
              ((FileIndex.mk 1 2).Size.toNat),
          ⟨⟨[(hashFilePath (filepathClean "a.txt"), FileIndex.mk 1 2)]⟩, 6,
           ⟨[9, 8, 7, 6, 5],
            (((1 : Nat) : Int) + (FileIndex.mk 1 2).Start).toNat
              + (FileIndex.mk 1 2).Size.toNat, false⟩, 1⟩) :=
  ⟨⟨by rw [mapLookup_cons]; exact if_pos rfl, by decide, by decide⟩,
   extract_seeks_and_reads _ 6 [9, 8, 7, 6, 5] 0 1 "a.txt" (FileIndex.mk 1 2)
     (by rw [mapLookup_cons]; exact if_pos rfl) (by decide) (by decide)⟩

/-- C5: when the derived key of the requested path string is absent from
the in-memory index, extraction fails with the not-found error (and so
never returns bytes). -/
theorem extract_absent_key_fails (ix : IxTar) (p : String)
    (h : mapLookup ix.index.Files (hashFilePath (filepathClean p)) = none) :
    ExtractBytesOfFile ix p = .error (.fileNotFound p) :=
  ExtractBytesOfFile_not_found ix p h

/-- Witness for C5 at a reader with an empty index. -/
theorem extract_absent_key_fails_witness :
    mapLookup (DataIndex.mk []).Files
        (hashFilePath (filepathClean "missing.txt")) = none
    ∧ ExtractBytesOfFile ⟨⟨[]⟩, 0, ⟨[], 0, false⟩, 32⟩ "missing.txt"
        = .error (.fileNotFound "missing.txt") :=
  ⟨rfl, extract_absent_key_fails ⟨⟨[]⟩, 0, ⟨[], 0, false⟩, 32⟩ "missing.txt" rfl⟩

/-- C6 counterexample: on a concrete opened bundle, calling ListFiles and
Info after Close returns their normal values (ListFiles and Info have no
failure path and read only the in-memory index), so it is not the case that
every operation after Close fails with a closed-resource error. -/
theorem list_info_succeed_after_close :
    (NewIxTar ((List.replicate 24 0 ++ putUint64BE 6)
        ++ [107, 44, 48, 44, 51, 10] ++ [1, 2, 3])).map
      (fun ix => (ListFiles (Close ix), Info (Close ix)))
      = .ok ([[107]], (1, 6)) := rfl

/-- C6 amended: after Close, extraction always fails (with the closed-handle
seek error when the key is present, or the not-found error when it is
absent), while ListFiles and Info read only the in-memory index and still
return their normal values. -/
theorem operations_after_close (ix : IxTar) (p : String) :
    (∃ err, ExtractBytesOfFile (Close ix) p = .error err)
    ∧ ListFiles (Close ix) = ListFiles ix
    ∧ Info (Close ix) = Info ix := by
  obtain ⟨idx, cs, ⟨contents, pos0, closed⟩, off⟩ := ix
  refine ⟨?_, rfl, rfl⟩
  cases hl : mapLookup idx.Files (hashFilePath (filepathClean p)) with
  | none =>
    exact ⟨.fileNotFound p, by simp only [ExtractBytesOfFile, Close, hl]⟩
  | some e =>
    refine ⟨.seekFail .closed, ?_⟩
    simp only [ExtractBytesOfFile, Close, hl, seekStart_of_closed]

/-- C7: every built bundle is exactly 24 zero bytes, the big-endian 64-bit
index length L in the next 8 bytes, the L index bytes, then the payload;
and the reader, on open, records csvSize = L and payloadStart = 32 + L. -/
theorem bundle_layout (t : List (String × List Nat))
    (hP : (payloadBytes t).length < 2 ^ 63)
    (hL : (encodeCSV (buildRecords hashFilePath t 0)).length < 2 ^ 64) :
    CreateBundle t
      = (List.replicate 24 0
          ++ putUint64BE (encodeCSV (buildRecords hashFilePath t 0)).length)
        ++ encodeCSV (buildRecords hashFilePath t 0) ++ payloadBytes t
    ∧ ∃ ix, NewIxTar (CreateBundle t) = .ok ix
        ∧ ix.csvSize = (encodeCSV (buildRecords hashFilePath t 0)).length
        ∧ ix.dataOffset = 32 + (encodeCSV (buildRecords hashFilePath t 0)).length := by
  refine ⟨rfl, builtIx hashFilePath t, ?_, rfl, rfl⟩
  exact NewIxTar_createBundleH hashFilePath t (buildRecords_validKeys t 0) hP hL

/-- Witness for C7 at the empty tree: the bundle is the bare 32-byte size
field holding zero, and the reader opens it with payloadStart 32. -/
theorem bundle_layout_witness :
    ((payloadBytes ([] : List (String × List Nat))).length < 2 ^ 63
      ∧ (encodeCSV (buildRecords hashFilePath [] 0)).length < 2 ^ 64)
    ∧ (CreateBundle []
        = (List.replicate 24 0
            ++ putUint64BE (encodeCSV (buildRecords hashFilePath [] 0)).length)
          ++ encodeCSV (buildRecords hashFilePath [] 0) ++ payloadBytes []
      ∧ ∃ ix, NewIxTar (CreateBundle []) = .ok ix
          ∧ ix.csvSize = (encodeCSV (buildRecords hashFilePath [] 0)).length
          ∧ ix.dataOffset = 32 + (encodeCSV (buildRecords hashFilePath [] 0)).length) :=
  ⟨⟨by decide, by decide⟩, bundle_layout [] (by decide) (by decide)⟩

/-- C8: in the index records of any successful build, every record's range
ends within the payload, and the ranges of any two distinct records are
disjoint. -/
theorem index_ranges_disjoint (t : List (String × List Nat)) :
    (∀ i : Fin (buildRecords hashFilePath t 0).length,
        ((buildRecords hashFilePath t 0).get i).start
          + ((buildRecords hashFilePath t 0).get i).size ≤ (payloadBytes t).length)
    ∧ (∀ i j : Fin (buildRecords hashFilePath t 0).length, i ≠ j →
        ((buildRecords hashFilePath t 0).get i).start
            + ((buildRecords hashFilePath t 0).get i).size
          ≤ ((buildRecords hashFilePath t 0).get j).start
        ∨ ((buildRecords hashFilePath t 0).get j).start
            + ((buildRecords hashFilePath t 0).get j).size
          ≤ ((buildRecords hashFilePath t 0).get i).start) := by
  constructor
  · intro i
    have hmem : (buildRecords hashFilePath t 0).get i ∈ buildRecords hashFilePath t 0 :=
      List.get_mem _ i.1 i.2
    have := buildRecords_bounds hashFilePath t 0 _ hmem
    omega
  · intro i j hne
    have hpair := List.pairwise_iff_get.mp (buildRecords_pairwise hashFilePath t 0)
    rcases lt_trichotomy i j with hij | hij | hij
    · exact Or.inl (hpair i j hij)
    · exact absurd hij hne
    · exact Or.inr (hpair j i hij)

/-- Witness for C8 at a two-file tree: the two records' ranges are
disjoint and each ends inside the payload. -/
theorem index_ranges_disjoint_witness :
    ((⟨0, by decide⟩ : Fin (buildRecords hashFilePath
        [("a", [1]), ("b", [2, 3])] 0).length)
      ≠ (⟨1, by decide⟩ : Fin (buildRecords hashFilePath
        [("a", [1]), ("b", [2, 3])] 0).length))
    ∧ (((buildRecords hashFilePath [("a", [1]), ("b", [2, 3])] 0).get ⟨0, by decide⟩).start
          + ((buildRecords hashFilePath [("a", [1]), ("b", [2, 3])] 0).get
              ⟨0, by decide⟩).size
        ≤ ((buildRecords hashFilePath [("a", [1]), ("b", [2, 3])] 0).get
            ⟨1, by decide⟩).start
      ∨ ((buildRecords hashFilePath [("a", [1]), ("b", [2, 3])] 0).get ⟨1, by decide⟩).start
          + ((buildRecords hashFilePath [("a", [1]), ("b", [2, 3])] 0).get
              ⟨1, by decide⟩).size
        ≤ ((buildRecords hashFilePath [("a", [1]), ("b", [2, 3])] 0).get
            ⟨0, by decide⟩).start) :=
  ⟨by decide,
   (index_ranges_disjoint [("a", [1]), ("b", [2, 3])]).2 ⟨0, by decide⟩ ⟨1, by decide⟩
     (by decide)⟩

/-- C9: a serialized index containing several records under the same key
decodes without error and the resulting map binds that key to the offset
and size of the last such record: duplicates are silently collapsed. -/
theorem parse_duplicate_keys_last_wins (recs recs2 : List CSVRec) (r : CSVRec)
    (hk : ∀ q ∈ recs ++ r :: recs2, validKey q.key = true)
    (hb : ∀ q ∈ recs ++ r :: recs2, q.start < 2 ^ 63 ∧ q.size < 2 ^ 63)
    (_hdup : r.key ∈ recs.map fun q => q.key)
    (hlast : r.key ∉ recs2.map fun q => q.key) :
    parseCSVIndex (encodeCSV (recs ++ r :: recs2))
        = .ok ⟨mapOfRecords (recs ++ r :: recs2)⟩
    ∧ mapLookup (mapOfRecords (recs ++ r :: recs2)) r.key
        = some ⟨(r.start : Int), (r.size : Int)⟩ :=
  ⟨parseCSVIndex_encodeCSV _ hk hb, mapLookup_mapOfRecords_last _ _ _ hlast⟩

/-- Witness for C9 at two records sharing the key byte 107: decoding the
serialized pair succeeds and the key maps to the second record's pair. -/
theorem parse_duplicate_keys_last_wins_witness :
    ((∀ q ∈ [CSVRec.mk [107] 0 1] ++ CSVRec.mk [107] 5 7 :: [], validKey q.key = true)
      ∧ (∀ q ∈ [CSVRec.mk [107] 0 1] ++ CSVRec.mk [107] 5 7 :: [],
          q.start < 2 ^ 63 ∧ q.size < 2 ^ 63)
      ∧ (CSVRec.mk [107] 5 7).key ∈ [CSVRec.mk [107] 0 1].map (fun q => q.key)
      ∧ (CSVRec.mk [107] 5 7).key ∉ ([] : List CSVRec).map fun q => q.key)
    ∧ (parseCSVIndex (encodeCSV ([CSVRec.mk [107] 0 1] ++ CSVRec.mk [107] 5 7 :: []))
        = .ok ⟨mapOfRecords ([CSVRec.mk [107] 0 1] ++ CSVRec.mk [107] 5 7 :: [])⟩
      ∧ mapLookup (mapOfRecords ([CSVRec.mk [107] 0 1] ++ CSVRec.mk [107] 5 7 :: []))
          (CSVRec.mk [107] 5 7).key = some ⟨(5 : Int), (7 : Int)⟩) :=
  ⟨⟨by decide, by decide, by decide, by decide⟩,
   parse_duplicate_keys_last_wins [CSVRec.mk [107] 0 1] [] (CSVRec.mk [107] 5 7)
     (by decide) (by decide) (by decide) (by decide)⟩

/-- C10: opening validates only the final 8 bytes of the 32-byte size
field: for arbitrary 24 leading junk bytes, a big-endian length matching a
well-formed index, and arbitrary trailing bytes, open succeeds with the
parsed index and payloadStart 32 + L; the leading bytes are never checked
to be zero. -/
theorem open_ignores_leading_bytes (junk : List Nat) (hjunk : junk.length = 24)
    (csv rest : List Nat) (hL : csv.length < 2 ^ 64)
    (idx : DataIndex) (hparse : parseCSVIndex csv = .ok idx) :
    ∃ ix, NewIxTar ((junk ++ putUint64BE csv.length) ++ csv ++ rest) = .ok ix
      ∧ ix.index = idx ∧ ix.csvSize = csv.length ∧ ix.dataOffset = 32 + csv.length :=
  ⟨_, NewIxTar_layout junk hjunk csv rest hL idx hparse, rfl, rfl, rfl⟩

/-- Witness for C10 at 24 leading bytes all 255 and an empty index. -/
theorem open_ignores_leading_bytes_witness :
    ((List.replicate 24 255).length = 24
      ∧ ([] : List Nat).length < 2 ^ 64
      ∧ parseCSVIndex [] = .ok (DataIndex.mk []))
    ∧ ∃ ix, NewIxTar ((List.replicate 24 255 ++ putUint64BE ([] : List Nat).length)
          ++ [] ++ []) = .ok ix
        ∧ ix.index = DataIndex.mk [] ∧ ix.csvSize = ([] : List Nat).length
        ∧ ix.dataOffset = 32 + ([] : List Nat).length :=
  ⟨⟨by decide, by decide, rfl⟩,
   open_ignores_leading_bytes (List.replicate 24 255) (by decide) [] [] (by decide)
     (DataIndex.mk []) rfl⟩

end Ixtar
